import Mathlib

/-!
Verification of the distributed instance-generation coordinator
(`src/instance_generator_driver.py` of the kcmc_heuristic repository).

The coordinator is a single-threaded async Python program that races
against other worker processes through a shared Redis store.  We give a
shallow embedding of its logic:

* the Redis keyspace touched by one configuration is modelled as three
  association lists (instance hash, evaluation hash, lock keys), with the
  Redis commands HSET / HLEN / HEXISTS / SETNX / EXPIRE / DELETE as pure
  functions on them;
* key expiry is modelled with explicit absolute time: a lock entry carries
  an optional absolute expiry instant, and a key whose expiry instant has
  been reached behaves exactly like an absent key (Redis deletes expired
  keys lazily);
* the external generator executable is an oracle parameter producing a
  list of (already ascii-decoded and stripped) stdout lines plus an exit
  code; the driver code never inspects the exit code, and `readline` at
  end-of-stream yields the empty string, both faithfully reproduced;
* the `__main__` convergence loop is embedded as a fuel-indexed recursion
  over passes, each pass sweeping the configuration catalog in order.

All definitions are computable, so concrete executions can be settled by
`decide` / `rfl`.
-/

/-- Constant `LOCK_TIME` (line 9 of the driver): the TTL, in the store's
time unit, given to every lock key by the EXPIRE command. -/
def LOCK_TIME : Nat := 10000

/-- Constant `BLOCK_SIZE` (line 10 of the driver): the stride of the block
scan `range(0, target_instances, BLOCK_SIZE)`. -/
def BLOCK_SIZE : Nat := 20

/-- One configuration tuple `(num_pois, num_sensors, num_sinks, area_side,
covg_radius, comm_radius)`; it determines all store keys for its slice of
the work space. -/
structure Config where
  num_pois : Nat
  num_sensors : Nat
  num_sinks : Nat
  area_side : Nat
  covg_radius : Nat
  comm_radius : Nat
deriving DecidableEq, Repr

/-! ### Association-list primitives

The Redis keyspace is a finite map; we model each hash / key family as an
association list manipulated only through the primitives below, which keep
at most one binding per key (update-in-place or append). -/

/-- Lookup of the first binding of key `k`. -/
def alGet {α β : Type} [DecidableEq α] : List (α × β) → α → Option β
  | [], _ => none
  | (k', v) :: rest, k => if k' = k then some v else alGet rest k

/-- Update the binding of `k` in place, or append a new binding. -/
def alSet {α β : Type} [DecidableEq α] : List (α × β) → α → β → List (α × β)
  | [], k, v => [(k, v)]
  | (k', v') :: rest, k, v =>
    if k' = k then (k, v) :: rest else (k', v') :: alSet rest k v

/-- Test whether a binding of `k` is present. -/
def alHas {α β : Type} [DecidableEq α] : List (α × β) → α → Bool
  | [], _ => false
  | (k', _) :: rest, k => if k' = k then true else alHas rest k

/-- Remove every binding of `k`. -/
def alDel {α β : Type} [DecidableEq α] (l : List (α × β)) (k : α) : List (α × β) :=
  l.filter (fun p => p.1 ≠ k)

theorem alGet_set_self {α β : Type} [DecidableEq α] (l : List (α × β)) (k : α) (v : β) :
    alGet (alSet l k v) k = some v := by
  induction l with
  | nil => simp [alGet, alSet]
  | cons p rest ih =>
    by_cases h : p.1 = k
    · simp [alSet, alGet, h]
    · simp [alSet, alGet, h, ih]

theorem alGet_set_ne {α β : Type} [DecidableEq α] (l : List (α × β)) (k k' : α) (v : β)
    (h : k ≠ k') : alGet (alSet l k v) k' = alGet l k' := by
  induction l with
  | nil => simp [alGet, alSet, h]
  | cons p rest ih =>
    by_cases hp : p.1 = k
    · simp [alSet, alGet, hp, h]
    · by_cases hp' : p.1 = k'
      · simp [alSet, alGet, hp, hp', Ne.symm h]
      · simp [alSet, alGet, hp, hp', ih]

theorem alHas_eq_isSome {α β : Type} [DecidableEq α] (l : List (α × β)) (k : α) :
    alHas l k = (alGet l k).isSome := by
  induction l with
  | nil => simp [alHas, alGet]
  | cons p rest ih =>
    by_cases h : p.1 = k
    · simp [alHas, alGet, h]
    · simp [alHas, alGet, h, ih]

theorem length_alSet_fresh {α β : Type} [DecidableEq α] (l : List (α × β)) (k : α) (v : β)
    (h : alHas l k = false) : (alSet l k v).length = l.length + 1 := by
  induction l with
  | nil => simp [alSet]
  | cons p rest ih =>
    by_cases hp : p.1 = k
    · simp [alHas, hp] at h
    · simp [alHas, hp] at h
      simp [alSet, hp, ih h]

theorem length_alSet_present {α β : Type} [DecidableEq α] (l : List (α × β)) (k : α) (v : β)
    (h : alHas l k = true) : (alSet l k v).length = l.length := by
  induction l with
  | nil => simp [alHas] at h
  | cons p rest ih =>
    by_cases hp : p.1 = k
    · simp [alSet, hp]
    · simp [alHas, hp] at h
      simp [alSet, hp, ih h]

theorem alHas_set {α β : Type} [DecidableEq α] (l : List (α × β)) (k k' : α) (v : β) :
    alHas (alSet l k v) k' = (if k = k' then true else alHas l k') := by
  by_cases h : k = k'
  · subst h
    simp [alHas_eq_isSome, alGet_set_self]
  · simp [alHas_eq_isSome, alGet_set_ne _ _ _ _ h, h]

/-! ### Redis hash commands (instance / evaluation hashes)

An `INSTANCE:<cfg>` or `EVALUATION:<cfg>` key is a Redis hash from seed
(field) to an opaque payload string. -/

/-- A Redis hash: seed field to payload value. -/
abbrev RHash := List (Nat × String)

/-- Command HSET: set one field of the hash. -/
def hset (h : RHash) (field : Nat) (v : String) : RHash := alSet h field v

/-- Command HLEN: number of fields of the hash. -/
def hlen (h : RHash) : Nat := h.length

/-- Command HEXISTS: is the field present. -/
def hexists (h : RHash) (field : Nat) : Bool := alHas h field

/-! ### Lock keys with TTL

A `LOCK:BLOCK<offset>:<instance-key>` key holds the acquisition timestamp
(written by SETNX as `str(time.time_ns())`) and, once EXPIRE ran, an
absolute expiry instant.  A key whose expiry instant has been reached is
indistinguishable from an absent key. -/

/-- Payload of one lock key: the timestamp value written by SETNX and the
absolute expiry instant set by EXPIRE (`none` before any EXPIRE). -/
structure LockEntry where
  value : Nat
  ttlEnd : Option Nat
deriving DecidableEq, Repr

/-- The lock keys of one configuration: block offset to lock entry. -/
abbrev LockMap := List (Nat × LockEntry)

/-- Has the entry not yet expired at instant `t`? An entry with no TTL is
persistent. -/
def entryAlive (e : LockEntry) (t : Nat) : Bool :=
  match e.ttlEnd with
  | none => true
  | some ex => t < ex

/-- Is the lock key for block `b` present (existing and unexpired) at
instant `t`?  Redis deletes expired keys lazily, so an expired entry
counts as absent. -/
def keyPresent (l : LockMap) (b t : Nat) : Bool :=
  match alGet l b with
  | some e => entryAlive e t
  | none => false

/-- Command SETNX at instant `t`: create the key with the timestamp value
if it is absent (or expired); report whether the create happened. -/
def setnx (l : LockMap) (b t : Nat) : Bool × LockMap :=
  if keyPresent l b t then (false, l) else (true, alSet l b ⟨t, none⟩)

/-- Command EXPIRE at instant `t`: if the key is present (and unexpired),
reset its TTL to `dur` from now; otherwise do nothing. -/
def expireCmd (l : LockMap) (b dur t : Nat) : LockMap :=
  match alGet l b with
  | some e => if entryAlive e t then alSet l b ⟨e.value, some (t + dur)⟩ else l
  | none => l

/-- The atomic claim transaction (driver lines 31-37): the pipeline
`setnx(lock, timestamp).expire(lock, LOCK_TIME)` executed as a single
all-or-nothing transaction; `has_lock` is the SETNX result and the EXPIRE
runs regardless of it. -/
def tryLock (l : LockMap) (b t : Nat) : Bool × LockMap :=
  let r := setnx l b t
  (r.1, expireCmd r.2 b LOCK_TIME t)

/-- Command DEL on the lock key (driver line 86). -/
def lockDel (l : LockMap) (b : Nat) : LockMap := alDel l b

/-! ### Block partitioner and lock scan -/

/-- Python `range(0, stop, step)` for positive `step`: the multiples of
`step` below `stop`, in increasing order (driver line 30 with
`stop = target_instances`, `step = BLOCK_SIZE`). -/
def pyRange (stop step : Nat) : List Nat :=
  (List.range ((stop + step - 1) / step)).map (· * step)

/-- The lock-scan loop (driver lines 30-39): walk the candidate offsets in
order, run the atomic claim transaction on each, and break at the first
success (a failed attempt sleeps 50 ms, which does not change the store).
Returns the claimed offset, if any, and the lock keys after all attempts
made. -/
def scanBlocks (t : Nat) : LockMap → List Nat → Option Nat × LockMap
  | l, [] => (none, l)
  | l, b :: rest =>
    match tryLock l b t with
    | (true, l1) => (some b, l1)
    | (false, l1) => scanBlocks t l1 rest

/-- Python slice `xs[a:b]` for non-negative bounds (driver line 47). -/
def pySlice (xs : List Nat) (a b : Nat) : List Nat :=
  (xs.drop a).take (b - a)

/-- The batch computed at driver lines 46-49: the slice
`random_seeds[max(block, existing_instances):target_instances]`, keeping
only seeds with no Instance Record yet (`not await redis.hexists(...)`). -/
def toGenerate (seeds : List Nat) (block existing target : Nat) (inst : RHash) : List Nat :=
  (pySlice seeds (max block existing) target).filter (fun s => !hexists inst s)

/-! ### Generation subprocess protocol -/

/-- What the opaque external generator produced for one invocation: its
stdout as a list of ascii-decoded, stripped lines, and its exit status.
The driver never inspects the exit status (`await proc.wait()` discards
it). -/
structure GenOutput where
  stdoutLines : List String
  exitCode : Nat
deriving DecidableEq, Repr

/-- One `await proc.stdout.readline()` followed by decode and strip: at
end-of-stream `readline` returns an empty byte string, which decodes and
strips to the empty string — no error is raised. -/
def readLine : List String → String × List String
  | [] => ("", [])
  | s :: rest => (s, rest)

/-- The pairing loop (driver lines 63-79): for each expected seed in batch
order read an instance line then an evaluation line, and write both fields
in one transaction before reading the next pair. -/
def writePairs : List String → List Nat → RHash → RHash → RHash × RHash
  | _, [], hi, he => (hi, he)
  | out, seed :: rest, hi, he =>
    let r1 := readLine out
    let r2 := readLine r1.2
    writePairs r2.2 rest (hset hi seed r1.1) (hset he seed r2.1)

/-! ### The coordinator -/

/-- The slice of the shared store owned by one configuration: its
`INSTANCE:` hash, its `EVALUATION:` hash, and its `LOCK:BLOCK*` keys. -/
structure ConfigState where
  instHash : RHash
  evalHash : RHash
  locks : LockMap
deriving DecidableEq, Repr

/-- The empty keyspace of a configuration: no records, no locks. -/
def emptyCS : ConfigState := ⟨[], [], []⟩

/-- An oracle for the external generator `/app/instance_generator`,
invoked with `[k_range, m_range, <the six configuration fields>, seeds…]`
(driver lines 53-60). -/
def GenOracle : Type := Nat → Nat → Config → List Nat → GenOutput

/-- The function `generate_instances` (driver lines 14-88), for one
configuration, at store instant `t`.  Returns the updated keyspace of the
configuration together with the returned pair: `(existing, 0)` when the
configuration is already complete, `(existing, -1)` when every block is
locked, `(existing, -2)` when the claimed block holds no missing seed
(both early returns keep the claimed lock), and otherwise
`(new HLEN, batch size)` after writing every pair and deleting the lock.
The subprocess exit status is never examined. -/
def generate_instances (gen : GenOracle) (random_seeds : List Nat)
    (k_range m_range : Nat) (cfg : Config) (target_instances : Nat)
    (t : Nat) (cs : ConfigState) : ConfigState × Int × Int :=
  let existing_instances := hlen cs.instHash
  if target_instances ≤ existing_instances then (cs, (existing_instances : Int), 0)
  else
    match scanBlocks t cs.locks (pyRange target_instances BLOCK_SIZE) with
    | (none, locks1) => ({cs with locks := locks1}, (existing_instances : Int), -1)
    | (some block, locks1) =>
      let to_generate := toGenerate random_seeds block existing_instances
        target_instances cs.instHash
      if to_generate.length = 0 then
        ({cs with locks := locks1}, (existing_instances : Int), -2)
      else
        let out := gen k_range m_range cfg to_generate
        let hs := writePairs out.stdoutLines to_generate cs.instHash cs.evalHash
        ({instHash := hs.1, evalHash := hs.2, locks := lockDel locks1 block},
         (hlen hs.1 : Int), (to_generate.length : Int))

/-- The shared store, as the keyspaces of the configurations seen so far
(a configuration never touched maps to the empty keyspace). -/
abbrev Store := List (Config × ConfigState)

/-- Read one configuration's keyspace from the store. -/
def getCS (st : Store) (c : Config) : ConfigState := (alGet st c).getD emptyCS

/-- Write one configuration's keyspace back to the store. -/
def setCS (st : Store) (c : Config) (cs : ConfigState) : Store := alSet st c cs

/-- One pass of the convergence loop (driver lines 117-128, error-free
path): sweep the catalog in order, run `generate_instances` on each
configuration, and accumulate `run_again = run_again or (current_work != 0)`. -/
def sweepConfigs (gen : GenOracle) (seeds : List Nat) (k m target t : Nat) :
    List Config → Store → Store × Bool
  | [], st => (st, false)
  | c :: rest, st =>
    let r := generate_instances gen seeds k m c target t (getCS st c)
    let r2 := sweepConfigs gen seeds k m target t rest (setCS st c r.1)
    (r2.1, (r.2.2 != 0) || r2.2)

/-- The `current_work` values produced during one pass, in catalog
order (observation function used to state the convergence condition). -/
def sweepWorks (gen : GenOracle) (seeds : List Nat) (k m target t : Nat) :
    List Config → Store → List Int
  | [], _ => []
  | c :: rest, st =>
    let r := generate_instances gen seeds k m c target t (getCS st c)
    r.2.2 :: sweepWorks gen seeds k m target t rest (setCS st c r.1)

/-- The convergence loop (driver lines 115-128): repeat full catalog
passes while `run_again`; pass number `idx` runs at store instant
`passTime idx`.  Fuel bounds the recursion; `some st` means the loop
reached the DONE state (a pass with `run_again = False`) within the given
number of passes, with final store `st`. -/
def runLoop (gen : GenOracle) (seeds : List Nat) (k m target : Nat)
    (passTime : Nat → Nat) (cfgs : List Config) :
    Nat → Nat → Store → Option Store
  | 0, _, _ => none
  | fuel + 1, idx, st =>
    match sweepConfigs gen seeds k m target (passTime idx) cfgs st with
    | (st1, true) => runLoop gen seeds k m target passTime cfgs fuel (idx + 1) st1
    | (st1, false) => some st1

/-! ### Error classification and the outer handler of `__main__` -/

/-- Characters Python's `str.strip()` removes and `int()` tolerates around
a literal. -/
def pyIsSpace (c : Char) : Bool :=
  c = ' ' || c = '\t' || c = '\n' || c = '\r' || c = '\x0b' || c = '\x0c'

/-- Python `str.strip()`: drop leading and trailing whitespace. -/
def pyStrip (s : List Char) : List Char :=
  ((s.dropWhile pyIsSpace).reverse.dropWhile pyIsSpace).reverse

/-- Python `str.lower()` (the characters appearing here are ascii). -/
def pyLower (s : List Char) : List Char := s.map Char.toLower

/-- The transient-error classification at driver line 130:
`{'connection', 'reset', 'peer'}.issubset(str(exp).lower().strip())`.
Python evaluates `issubset` of a string by iterating the string's
characters, so each word of the set is compared against the
single-character strings of the message. -/
def isTransientMatch (msg : String) : Bool :=
  ["connection", "reset", "peer"].all (fun w =>
    (pyStrip (pyLower msg.data)).any (fun c => String.mk [c] == w))

/-- A fallible per-configuration action: what one iteration of the inner
`try` body (driver lines 120-127) yields — the store after the call plus
the `current_work` value, or the textual description `str(exp)` of the
exception it raised. -/
def ConfigAction : Type := Config → Store → Except String (Store × Int)

/-- One catalog pass with the per-configuration exception handling of
driver lines 118-132: on an error matching the transient classification,
sleep a fixed delay and continue with the next configuration of the same
pass (leaving `run_again` untouched); on any other error, re-raise,
aborting the pass. -/
def sweepWithErrors (act : ConfigAction) : List Config → Store → Except String (Store × Bool)
  | [], st => .ok (st, false)
  | c :: rest, st =>
    match act c st with
    | .ok (st1, work) =>
      match sweepWithErrors act rest st1 with
      | .ok (st2, again) => .ok (st2, (work != 0) || again)
      | .error m => .error m
    | .error msg =>
      if isTransientMatch msg then sweepWithErrors act rest st
      else .error msg

/-- The outer handler of `__main__` (driver lines 92 and 134-135): whether
the body completed or raised, the handler only prints the traceback and
execution falls off the end of the script, so the process exit status is 0
in every case. -/
def mainExitCode (body : Except String Unit) : Nat :=
  match body with
  | .ok _ => 0
  | .error _ => 0

/-! ### Startup loading of the Seed Universe and configuration catalog -/

/-- Value of a non-empty all-digit character list; `none` otherwise. -/
def digitsVal (cs : List Char) : Option Nat :=
  if cs = [] then none
  else cs.foldl (fun acc c =>
    match acc with
    | none => none
    | some n => if c.isDigit then some (n * 10 + (c.toNat - '0'.toNat)) else none)
    (some 0)

/-- Python `int(token)` on a decimal string: surrounding whitespace, an
optional sign, then one or more digits; `none` where Python raises
`ValueError`. -/
def pyIntParse (s : List Char) : Option Int :=
  match pyStrip s with
  | '-' :: rest => (digitsVal rest).map (fun n => -(n : Int))
  | '+' :: rest => (digitsVal rest).map (fun n => (n : Int))
  | t => (digitsVal t).map (fun n => (n : Int))

/-- The two `.replace` calls at driver line 104: each tab and newline
becomes a space. -/
def normalizeSeps (s : List Char) : List Char :=
  s.map (fun c => if c = '\t' ∨ c = '\n' then ' ' else c)

/-- Python `split(" ")`: split on each single space, keeping empty pieces
between consecutive separators. -/
def splitSpace : List Char → List Char → List (List Char)
  | [], acc => [acc.reverse]
  | c :: cs, acc =>
    if c = ' ' then acc.reverse :: splitSpace cs [] else splitSpace cs (c :: acc)

/-- The seed tokens of the raw seed source (driver line 104): normalize
separators, split on spaces, keep the non-empty pieces. -/
def seedTokens (raw : String) : List (List Char) :=
  (splitSpace (normalizeSeps raw.data) []).filter (fun tk => tk.length > 0)

/-- Evaluation of a list comprehension whose element expression may raise:
elements are produced left to right and the first raise aborts the whole
comprehension. -/
def exceptMapM {α β : Type} (g : α → Except String β) : List α → Except String (List β)
  | [] => .ok []
  | a :: rest =>
    match g a with
    | .error m => .error m
    | .ok b =>
      match exceptMapM g rest with
      | .error m => .error m
      | .ok bs => .ok (b :: bs)

/-- Coercion of one token by Python `int`, raising `ValueError` on a
non-numeric token. -/
def intOrRaise (tk : List Char) : Except String Int :=
  (pyIntParse tk).elim (Except.error "ValueError: invalid literal for int") Except.ok

/-- The Seed-Universe loading (driver lines 102-104):
`list(set([int(i) for i in ... if len(i) > 0]))` — coerce every token with
`int` (a `ValueError` aborts the load) and deduplicate.  Python's `set`
iteration order is unspecified; the model keeps one canonical
deduplication order, which no claim depends on. -/
def parseSeeds (raw : String) : Except String (List Int) :=
  match exceptMapM intOrRaise (seedTokens raw) with
  | .ok l => .ok l.dedup
  | .error m => .error m

/-- The configuration-catalog loading (driver lines 107-112): the csv rows
(each row already split on the delimiter by `csv.reader`), the header row
skipped (`if i == 0: continue`), every field stripped then coerced with
`int` — a `ValueError` aborts the load. -/
def parseConfigs (rows : List (List String)) : Except String (List (List Int)) :=
  exceptMapM (fun row => exceptMapM (fun f => intOrRaise (pyStrip f.data)) row) (rows.drop 1)

/-- The generation range in the words of the specification: the seeds at
positions `max(block_offset, existing_count) .. target` of the Seed
Universe, taken in Seed-Universe order, excluding every seed that already
has an Instance Record in the store. -/
def specGenerationRange (seeds : List Nat) (block existing target : Nat)
    (inst : RHash) : List Nat :=
  ((List.range seeds.length).filterMap (fun i =>
    if max block existing ≤ i ∧ i < target then seeds.get? i else none)).filter
    (fun s => !hexists inst s)

/-! ### Lock-protocol lemmas -/

theorem keyPresent_of_tryLock_success (l : LockMap) (b t : Nat)
    (h : (tryLock l b t).1 = true) :
    alGet (tryLock l b t).2 b = some ⟨t, some (t + LOCK_TIME)⟩ := by
  by_cases hp : keyPresent l b t
  · simp [tryLock, setnx, hp] at h
  · simp only [tryLock, setnx, hp, if_neg, Bool.false_eq_true, reduceIte]
    rw [expireCmd, alGet_set_self]
    simp [entryAlive, alGet_set_self]

theorem tryLock_success_iff (l : LockMap) (b t : Nat) :
    (tryLock l b t).1 = true ↔ keyPresent l b t = false := by
  by_cases hp : keyPresent l b t <;> simp [tryLock, setnx, hp]

/-- A failed claim attempt leaves every lock key's presence unchanged (at
the instant of the attempt): the only mutation is the TTL refresh of the
still-live contested key. -/
theorem keyPresent_of_tryLock_fail (l : LockMap) (b t : Nat)
    (h : (tryLock l b t).1 = false) (b' : Nat) :
    keyPresent (tryLock l b t).2 b' t = keyPresent l b' t := by
  by_cases hp : keyPresent l b t
  · have hl : (tryLock l b t).2 = expireCmd l b LOCK_TIME t := by
      simp [tryLock, setnx, hp]
    rw [hl]
    rcases hg : alGet l b with _ | e
    · simp [expireCmd, hg]
    · have halive : entryAlive e t = true := by
        simpa [keyPresent, hg] using hp
      simp only [expireCmd, hg, halive, reduceIte]
      by_cases hb : b = b'
      · subst hb
        simp only [keyPresent, alGet_set_self, hg, entryAlive, LOCK_TIME]
        have h1 : decide (t < t + 10000) = true := by simp
        rw [h1]
        exact halive.symm
      · rw [keyPresent, alGet_set_ne _ _ _ _ hb, ← keyPresent]
  · simp [tryLock, setnx, hp] at h

/-- A serialization of `n` concurrent claim attempts on the same block at
the same instant: each attempt is the atomic SETNX+EXPIRE transaction of
driver lines 31-37, so any interleaving of `n` workers is some sequential
order of `n` transactions.  Returns the observed SETNX results in order,
plus the final lock keys. -/
def attemptAll (b t : Nat) : LockMap → Nat → List Bool × LockMap
  | l, 0 => ([], l)
  | l, n + 1 =>
    let r := tryLock l b t
    let r2 := attemptAll b t r.2 n
    (r.1 :: r2.1, r2.2)

theorem attemptAll_all_fail (b t : Nat) :
    ∀ (n : Nat) (l : LockMap), keyPresent l b t = true →
      (attemptAll b t l n).1 = List.replicate n false := by
  intro n
  induction n with
  | zero => intro l _; simp [attemptAll]
  | succ m ih =>
    intro l h
    have hfail : (tryLock l b t).1 = false := by
      rcases hb : (tryLock l b t).1 with _ | _
      · rfl
      · rw [tryLock_success_iff] at hb
        rw [h] at hb
        cases hb
    have hkeep : keyPresent (tryLock l b t).2 b t = true := by
      rw [keyPresent_of_tryLock_fail l b t hfail b]
      exact h
    simp only [attemptAll, hfail, List.replicate_succ]
    rw [ih _ hkeep]

/-- Claim C1 (mutual exclusion of block claims).  Starting from any store
state in which the lock key of a block is not live, any serialization of
`n ≥ 1` simultaneous atomic claim attempts on that block yields exactly
one success — the first transaction to run — and `n − 1` failures, each
observed as `has_lock = False` with no error.  (At most one live lock per
(configuration, block) pair is structural: the store holds at most one
value per key.) -/
theorem mutual_exclusion_of_block_claims (l : LockMap) (b t n : Nat)
    (hfree : keyPresent l b t = false) (hn : 0 < n) :
    (attemptAll b t l n).1 = true :: List.replicate (n - 1) false := by
  rcases n with _ | m
  · omega
  · have hwin : (tryLock l b t).1 = true := (tryLock_success_iff l b t).mpr hfree
    have hheld : keyPresent (tryLock l b t).2 b t = true := by
      rw [keyPresent, keyPresent_of_tryLock_success l b t hwin]
      simp [entryAlive, LOCK_TIME]
    simp only [attemptAll, hwin, Nat.add_sub_cancel]
    rw [attemptAll_all_fail b t m _ hheld]

/-- Concrete run of claim C1: three workers race for block 0 of a fresh
configuration at instant 5; the first transaction wins, the other two
observe "not claimed". -/
theorem mutual_exclusion_of_block_claims_witness :
    keyPresent [] 0 5 = false ∧ 0 < 3 ∧
      (attemptAll 0 5 [] 3).1 = true :: List.replicate (3 - 1) false :=
  ⟨rfl, by decide, mutual_exclusion_of_block_claims [] 0 5 3 rfl (by decide)⟩

/-- Claim C6 (lock self-healing).  A lock acquired at instant `t0` and
never deleted, with no other operation touching it, is re-claimable by
another worker's atomic attempt at instant `t1` exactly when the fixed TTL
has fully elapsed (`t0 + LOCK_TIME ≤ t1`, i.e. strictly after every
instant at which the TTL had not yet run out), and never before. -/
theorem lock_self_healing_iff_ttl_elapsed (l : LockMap) (b t0 t1 : Nat)
    (hacq : (tryLock l b t0).1 = true) :
    ((tryLock (tryLock l b t0).2 b t1).1 = true ↔ t0 + LOCK_TIME ≤ t1) := by
  have hentry := keyPresent_of_tryLock_success l b t0 hacq
  rw [tryLock_success_iff, keyPresent, hentry]
  simp [entryAlive]

/-- Concrete run of claim C6: a lock taken at instant 0 is re-claimable at
instant `LOCK_TIME` (and the iff also certifies it is not re-claimable at
any earlier instant). -/
theorem lock_self_healing_iff_ttl_elapsed_witness :
    (tryLock [] 0 0).1 = true ∧
      ((tryLock (tryLock [] 0 0).2 0 10000).1 = true ↔ 0 + LOCK_TIME ≤ 10000) :=
  ⟨by decide, lock_self_healing_iff_ttl_elapsed [] 0 0 10000 (by decide)⟩

/-- Claim C10 (EXPIRE runs regardless of SETNX).  After any claim attempt
at instant `t` — successful or failed, including a failed attempt against
a block whose lock another worker holds — the lock key exists and its
expiry instant is `t + LOCK_TIME`: the remaining TTL is reset to the full
`LOCK_TIME`, because the transaction of driver lines 31-37 always executes
the EXPIRE after the SETNX. -/
theorem every_attempt_resets_ttl (l : LockMap) (b t : Nat) :
    ∃ v, alGet (tryLock l b t).2 b = some ⟨v, some (t + LOCK_TIME)⟩ := by
  by_cases hp : keyPresent l b t
  · rcases hg : alGet l b with _ | e
    · rw [keyPresent, hg] at hp
      cases hp
    · have halive : entryAlive e t = true := by
        simpa [keyPresent, hg] using hp
      refine ⟨e.value, ?_⟩
      simp only [tryLock, setnx, hp, reduceIte, expireCmd, hg, halive]
      exact alGet_set_self l b ⟨e.value, some (t + LOCK_TIME)⟩
  · exact ⟨t, keyPresent_of_tryLock_success l b t
      ((tryLock_success_iff l b t).mpr (by simpa using hp))⟩

/-- The lock scan returns exactly the first candidate offset whose key is
not live at the scan instant: each failed attempt only refreshes the TTL
of a key that is live anyway, so later attempts see the original
presence. -/
theorem scanBlocks_eq_find (t : Nat) :
    ∀ (offs : List Nat) (l : LockMap),
      (scanBlocks t l offs).1 = offs.find? (fun b => !keyPresent l b t) := by
  intro offs
  induction offs with
  | nil => intro l; simp [scanBlocks]
  | cons b rest ih =>
    intro l
    by_cases hp : keyPresent l b t
    · have hfail : (tryLock l b t).1 = false := by
        rcases hb : (tryLock l b t).1 with _ | _
        · rfl
        · rw [tryLock_success_iff] at hb
          rw [hp] at hb
          cases hb
      have hstep : scanBlocks t l (b :: rest) = scanBlocks t (tryLock l b t).2 rest := by
        rcases htl : tryLock l b t with ⟨g, l1⟩
        rw [htl] at hfail
        simp at hfail
        subst hfail
        simp [scanBlocks, htl]
      rw [hstep, ih]
      have hsame : (fun b' => !keyPresent (tryLock l b t).2 b' t)
          = (fun b' => !keyPresent l b' t) := by
        funext b'
        rw [keyPresent_of_tryLock_fail l b t hfail b']
      rw [hsame, List.find?_cons_of_neg]
      simp [hp]
    · have hwin : (tryLock l b t).1 = true := (tryLock_success_iff l b t).mpr (by simpa using hp)
      have hstep : (scanBlocks t l (b :: rest)).1 = some b := by
        rcases htl : tryLock l b t with ⟨g, l1⟩
        rw [htl] at hwin
        simp at hwin
        subst hwin
        simp [scanBlocks, htl]
      rw [hstep, List.find?_cons_of_pos]
      simp [hp]

/-- Claim C7 (block scan order and first-claim-wins).  The candidate
offsets scanned for a target are the multiples of `BLOCK_SIZE` below the
target, in strictly increasing order and with no multiple skipped; the
scan claims exactly the first offset whose lock key is not live and stops
there; and for `BLOCK_SIZE = 20`, `target = 45` the offsets evaluated are
`[0, 20, 40]` in that order. -/
theorem block_scan_order_first_claim_wins (target t : Nat) (l : LockMap) :
    pyRange 45 BLOCK_SIZE = [0, 20, 40]
    ∧ List.Pairwise (· < ·) (pyRange target BLOCK_SIZE)
    ∧ (∀ o ∈ pyRange target BLOCK_SIZE, o < target ∧ BLOCK_SIZE ∣ o)
    ∧ (∀ i, i * BLOCK_SIZE < target → i * BLOCK_SIZE ∈ pyRange target BLOCK_SIZE)
    ∧ (scanBlocks t l (pyRange target BLOCK_SIZE)).1
        = (pyRange target BLOCK_SIZE).find? (fun b => !keyPresent l b t) := by
  refine ⟨by decide, ?_, ?_, ?_, scanBlocks_eq_find t _ l⟩
  · rw [pyRange, List.pairwise_map]
    have h20 : (0 : Nat) < 20 := by decide
    exact (List.pairwise_lt_range _).imp
      (fun {a b} hab => by
        show a * BLOCK_SIZE < b * BLOCK_SIZE
        rw [BLOCK_SIZE]
        omega)
  · intro o ho
    rw [pyRange, List.mem_map] at ho
    rcases ho with ⟨i, hi, rfl⟩
    rw [List.mem_range] at hi
    rw [BLOCK_SIZE] at hi ⊢
    constructor
    · omega
    · exact ⟨i, by omega⟩
  · intro i hi
    rw [pyRange, List.mem_map]
    refine ⟨i, ?_, rfl⟩
    rw [List.mem_range]
    rw [BLOCK_SIZE] at hi ⊢
    omega

theorem filterMap_range_window : ∀ (l : List Nat) (a b : Nat),
    (List.range l.length).filterMap
      (fun i => if a ≤ i ∧ i < b then l.get? i else none) = pySlice l a b := by
  intro l
  induction l with
  | nil =>
    intro a b
    simp [pySlice]
  | cons x xs ih =>
    intro a b
    have htail : ((fun i => if a ≤ i ∧ i < b then (x :: xs).get? i else none) ∘ Nat.succ)
        = fun i => if a - 1 ≤ i ∧ i < b - 1 then xs.get? i else none := by
      funext i
      have hiff : (a ≤ i + 1 ∧ i + 1 < b) ↔ (a - 1 ≤ i ∧ i < b - 1) := by omega
      by_cases h : a - 1 ≤ i ∧ i < b - 1
      · rw [Function.comp_apply, if_pos (hiff.mpr h), if_pos h]
        rfl
      · rw [Function.comp_apply, if_neg (fun hh => h (hiff.mp hh)), if_neg h]
    rw [List.length_cons, List.range_succ_eq_map]
    by_cases h0 : a = 0 ∧ 0 < b
    · obtain ⟨rfl, hb⟩ := h0
      obtain ⟨b', rfl⟩ : ∃ b', b = b' + 1 := ⟨b - 1, by omega⟩
      have hsome : (fun i => if (0 : Nat) ≤ i ∧ i < b' + 1 then (x :: xs).get? i else none) 0
          = some x := by simp
      rw [@List.filterMap_cons_some _ _
        (fun i => if (0 : Nat) ≤ i ∧ i < b' + 1 then (x :: xs).get? i else none) 0
        (List.map Nat.succ (List.range xs.length)) x hsome, List.filterMap_map, htail, ih]
      simp [pySlice]
    · have hnone : (fun i => if a ≤ i ∧ i < b then (x :: xs).get? i else none) 0 = none := by
        simp only []
        rw [if_neg]
        rintro ⟨ha, hb⟩
        exact h0 ⟨Nat.le_zero.mp ha, hb⟩
      rw [@List.filterMap_cons_none _ _
        (fun i => if a ≤ i ∧ i < b then (x :: xs).get? i else none) 0
        (List.map Nat.succ (List.range xs.length)) hnone, List.filterMap_map, htail, ih]
      rcases Nat.eq_zero_or_pos a with rfl | ha
      · have hb0 : b = 0 := by
          by_contra hb
          exact h0 ⟨rfl, by omega⟩
        subst hb0
        simp [pySlice]
      · obtain ⟨a', rfl⟩ : ∃ a', a = a' + 1 := ⟨a - 1, by omega⟩
        simp only [pySlice, List.drop_succ_cons, Nat.succ_sub_one]
        congr 1
        omega

/-- Claim C8 (generation-range computation).  For every claimed block and
existing count, the batch the driver submits to the generator
(`toGenerate`, used verbatim inside `generate_instances`) equals the seeds
at positions `max(block_offset, existing_count) .. target` of the Seed
Universe, in Seed-Universe order, with every seed that already has an
Instance Record excluded (the spec-side formulation
`specGenerationRange`). -/
theorem generation_range_matches_spec (seeds : List Nat)
    (block existing target : Nat) (inst : RHash) :
    toGenerate seeds block existing target inst
      = specGenerationRange seeds block existing target inst := by
  rw [toGenerate, specGenerationRange, filterMap_range_window]

/-- A sample configuration used by concrete runs. -/
def cfgA : Config := ⟨1, 1, 1, 1, 1, 1⟩

/-- Claim C3 (pairing integrity and short-read failure).  First conjunct:
with a well-behaved generator the driver reads two lines per requested
seed and writes them as ordered (instance, evaluation) pairs matching the
requested seed order.  Second conjunct: with a generator that emits zero
lines and exits with status 1 for a one-seed batch, the driver raises no
failure — `readline` at end-of-stream yields the empty string, the empty
strings are durably written as the seed's Instance and Evaluation Records,
the exit status is never examined, and the call reports full success
`(1, 1)` after deleting the lock. -/
theorem driver_silently_accepts_short_generator_output :
    generate_instances (fun _ _ _ _ => ⟨["i7", "e7", "i9", "e9"], 0⟩) [7, 9] 0 0 cfgA 2 0 emptyCS
      = (⟨[(7, "i7"), (9, "i9")], [(7, "e7"), (9, "e9")], []⟩, 2, 2)
    ∧ generate_instances (fun _ _ _ _ => ⟨[], 1⟩) [7] 0 0 cfgA 1 0 emptyCS
      = (⟨[(7, "")], [(7, "")], []⟩, 1, 1) :=
  ⟨rfl, rfl⟩

/-- The word-set test of driver line 130 can never hold: `issubset` on a
string compares each multi-character word of the set against the
single-character elements of the message, so no message ever matches the
transient signature. -/
theorem isTransientMatch_always_false (msg : String) : isTransientMatch msg = false := by
  have hconn : (pyStrip (pyLower msg.data)).any (fun c => String.mk [c] == "connection")
      = false := by
    rw [List.any_eq_false]
    intro c _
    intro hc
    have hceq : String.mk [c] = "connection" := eq_of_beq hc
    have hlen : ([c].length : Nat) = "connection".data.length := by
      rw [show [c] = (String.mk [c]).data from rfl, hceq]
    have h10 : "connection".data.length = 10 := by decide
    rw [h10] at hlen
    simp at hlen
  rw [isTransientMatch, List.all_cons, hconn, Bool.false_and]

/-- Claim C4 (error classification in the convergence loop).  At the very
input the classification was written for — an error described as
"connection reset by peer" — the transient test is false (it is false for
every message: the `issubset` call compares words against single
characters), so the error is re-raised and aborts the pass instead of
triggering the fixed delay; and the outer handler of `__main__` only
prints the traceback, so the process exit status is 0, not non-zero. -/
theorem transient_classification_dead_and_exit_zero :
    isTransientMatch "connection reset by peer" = false
    ∧ sweepWithErrors (fun _ _ => .error "connection reset by peer") [cfgA] []
        = .error "connection reset by peer"
    ∧ mainExitCode (Except.error "connection reset by peer") = 0 :=
  ⟨isTransientMatch_always_false _, rfl, rfl⟩

theorem exceptMapM_ok_forall2 {α β : Type} (g : α → Except String β) :
    ∀ {l : List α} {res : List β}, exceptMapM g l = .ok res →
      List.Forall₂ (fun a b => g a = .ok b) l res := by
  intro l
  induction l with
  | nil =>
    intro res h
    rw [exceptMapM] at h
    cases h
    exact List.Forall₂.nil
  | cons a rest ih =>
    intro res h
    rw [exceptMapM] at h
    rcases hg : g a with m | b <;> rw [hg] at h
    · cases h
    · rcases hr : exceptMapM g rest with m | bs <;> rw [hr] at h
      · cases h
      · cases h
        exact List.Forall₂.cons hg (ih hr)

theorem forall2_ok_mem_iff {α β : Type} (g : α → Except String β) :
    ∀ {l : List α} {res : List β}, List.Forall₂ (fun a b => g a = .ok b) l res →
      ∀ x, (x ∈ res ↔ ∃ a ∈ l, g a = .ok x) := by
  intro l res h
  induction h with
  | nil => simp
  | cons hab hrest ih =>
    intro x
    constructor
    · intro hx
      rcases List.mem_cons.mp hx with rfl | hx'
      · exact ⟨_, List.mem_cons_self _ _, hab⟩
      · rcases (ih x).mp hx' with ⟨a', ha', hga'⟩
        exact ⟨a', List.mem_cons_of_mem _ ha', hga'⟩
    · rintro ⟨a', ha', hga'⟩
      rcases List.mem_cons.mp ha' with rfl | ha'
      · rw [hab] at hga'
        exact List.mem_cons.mpr (Or.inl (Except.ok.inj hga').symm)
      · exact List.mem_cons.mpr (Or.inr ((ih x).mpr ⟨a', ha', hga'⟩))

theorem exceptMapM_error_of_bad {α β : Type} (g : α → Except String β) :
    ∀ {l : List α} {a : α}, a ∈ l → (∀ b, g a ≠ .ok b) →
      ∃ m, exceptMapM g l = .error m := by
  intro l
  induction l with
  | nil =>
    intro a ha
    cases ha
  | cons x rest ih =>
    intro a ha hbad
    rcases hg : g x with m | b
    · exact ⟨m, by rw [exceptMapM, hg]⟩
    · rcases List.mem_cons.mp ha with rfl | ha'
      · exact absurd hg (hbad b)
      · rcases ih ha' hbad with ⟨m, hm⟩
        exact ⟨m, by rw [exceptMapM, hg, hm]⟩

theorem intOrRaise_ok_iff (tk : List Char) (x : Int) :
    intOrRaise tk = .ok x ↔ pyIntParse tk = some x := by
  rw [intOrRaise]
  rcases h : pyIntParse tk with _ | v
  · simp [Option.elim]
  · simp [Option.elim]

/-- Counterexample to claim C9 as stated: the empty seed source does not
fail with a parsing error — the comprehension over zero tokens yields an
empty seed list and loading succeeds (`int` is never called). -/
theorem empty_seed_source_loads_without_error : parseSeeds "" = Except.ok [] := rfl

/-- Claim C9 as amended.  Loading deduplicates the whitespace- and
newline-separated seed source (the result has no duplicates and holds
exactly the integer values of the tokens); configuration loading skips the
header row and coerces every remaining field to an integer, failing with a
parsing error when any field is non-numeric; but an empty seed source is
not an error: it loads as the empty seed list. -/
theorem startup_loading_contract (raw : String) (rows rowsBad : List (List String))
    (l : List Int)
    (hseeds : parseSeeds raw = Except.ok l)
    (hbad : ∃ row ∈ rowsBad.drop 1, ∃ f ∈ row, pyIntParse (pyStrip f.data) = none) :
    parseSeeds "" = Except.ok []
    ∧ l.Nodup
    ∧ (∀ x, x ∈ l ↔ ∃ tk ∈ seedTokens raw, pyIntParse tk = some x)
    ∧ (∃ m, parseConfigs rowsBad = Except.error m)
    ∧ (∀ cs, parseConfigs rows = Except.ok cs →
        List.Forall₂ (fun row ints => List.Forall₂
          (fun f n => pyIntParse (pyStrip f.data) = some n) row ints) (rows.drop 1) cs) := by
  have hbase : ∃ l0, exceptMapM intOrRaise (seedTokens raw) = .ok l0 ∧ l = l0.dedup := by
    rw [parseSeeds] at hseeds
    rcases hm : exceptMapM intOrRaise (seedTokens raw) with m | l0 <;> rw [hm] at hseeds
    · cases hseeds
    · exact ⟨l0, rfl, (Except.ok.inj hseeds).symm⟩
  rcases hbase with ⟨l0, hl0, rfl⟩
  refine ⟨rfl, List.nodup_dedup l0, ?_, ?_, ?_⟩
  · intro x
    rw [List.mem_dedup]
    have hiff := forall2_ok_mem_iff intOrRaise (exceptMapM_ok_forall2 intOrRaise hl0) x
    rw [hiff]
    constructor
    · rintro ⟨tk, htk, hok⟩
      exact ⟨tk, htk, (intOrRaise_ok_iff tk x).mp hok⟩
    · rintro ⟨tk, htk, hok⟩
      exact ⟨tk, htk, (intOrRaise_ok_iff tk x).mpr hok⟩
  · rcases hbad with ⟨row, hrow, f, hf, hnone⟩
    have hrowbad : ∃ m, exceptMapM (fun g : String => intOrRaise (pyStrip g.data)) row = .error m := by
      refine exceptMapM_error_of_bad _ hf ?_
      intro b hb
      rw [intOrRaise, hnone] at hb
      cases hb
    rcases hrowbad with ⟨m0, hm0⟩
    refine exceptMapM_error_of_bad _ hrow ?_
    intro bs hbs
    rw [hm0] at hbs
    cases hbs
  · intro cs hcs
    rw [parseConfigs] at hcs
    have houter := exceptMapM_ok_forall2 _ hcs
    refine houter.imp ?_
    intro row ints hrow
    have hinner := exceptMapM_ok_forall2 (fun f : String => intOrRaise (pyStrip f.data)) hrow
    refine hinner.imp ?_
    intro f n hf
    exact (intOrRaise_ok_iff _ _).mp hf

/-- Concrete run of the amended claim C9: seed source `"5 3"` loads as
`[5, 3]`, and a catalog whose second row holds the non-numeric field `"x"`
fails to load. -/
theorem startup_loading_contract_witness :
    parseSeeds "5 3" = Except.ok [5, 3]
    ∧ (∃ row ∈ ([["h"], ["1", "x"]] : List (List String)).drop 1, ∃ f ∈ row,
        pyIntParse (pyStrip f.data) = none)
    ∧ (parseSeeds "" = Except.ok []
       ∧ ([5, 3] : List Int).Nodup
       ∧ (∀ x, x ∈ ([5, 3] : List Int) ↔
            ∃ tk ∈ seedTokens "5 3", pyIntParse tk = some x)
       ∧ (∃ m, parseConfigs [["h"], ["1", "x"]] = Except.error m)
       ∧ (∀ cs, parseConfigs [["h1", "h2"], ["1", " 2 "]] = Except.ok cs →
           List.Forall₂ (fun row ints => List.Forall₂
             (fun f n => pyIntParse (pyStrip f.data) = some n) row ints)
             ([["h1", "h2"], ["1", " 2 "]].drop 1) cs)) :=
  ⟨rfl, by decide,
    startup_loading_contract "5 3" [["h1", "h2"], ["1", " 2 "]] [["h"], ["1", "x"]]
      [5, 3] rfl (by decide)⟩

/-! ### Behavior of one pass -/

/-- The "already complete" soft outcome (driver line 25): when the
configuration has at least the target number of Instance Records, the call
returns `(existing, 0)` and touches nothing. -/
theorem generate_instances_complete (gen : GenOracle) (seeds : List Nat)
    (k m : Nat) (c : Config) (target t : Nat) (cs : ConfigState)
    (h : target ≤ hlen cs.instHash) :
    generate_instances gen seeds k m c target t cs = (cs, (hlen cs.instHash : Int), 0) := by
  rw [generate_instances]
  simp [h]

/-- The "block fully contended" soft outcome (driver line 42): when every
candidate block's lock is live, the call returns work value `-1` and
writes no Instance or Evaluation Record. -/
theorem generate_instances_contended (gen : GenOracle) (seeds : List Nat)
    (k m : Nat) (c : Config) (target t : Nat) (cs : ConfigState)
    (h1 : hlen cs.instHash < target)
    (h2 : ∀ b ∈ pyRange target BLOCK_SIZE, keyPresent cs.locks b t = true) :
    generate_instances gen seeds k m c target t cs
      = ({cs with locks := (scanBlocks t cs.locks (pyRange target BLOCK_SIZE)).2},
         (hlen cs.instHash : Int), -1) := by
  have hfind : (pyRange target BLOCK_SIZE).find? (fun b => !keyPresent cs.locks b t)
      = none := by
    rw [List.find?_eq_none]
    intro b hb
    simp [h2 b hb]
  have hsc := scanBlocks_eq_find t (pyRange target BLOCK_SIZE) cs.locks
  rw [hfind] at hsc
  rcases hscan : scanBlocks t cs.locks (pyRange target BLOCK_SIZE) with ⟨ob, lk⟩
  rw [hscan] at hsc
  simp at hsc
  subst hsc
  rw [generate_instances]
  simp only [hscan]
  rw [if_neg (by omega)]

theorem sweepConfigs_flag_eq_any (gen : GenOracle) (seeds : List Nat)
    (k m target t : Nat) :
    ∀ (cfgs : List Config) (st : Store),
      (sweepConfigs gen seeds k m target t cfgs st).2
        = (sweepWorks gen seeds k m target t cfgs st).any (fun w => w != 0) := by
  intro cfgs
  induction cfgs with
  | nil => intro st; rfl
  | cons c rest ih =>
    intro st
    rw [sweepConfigs, sweepWorks, List.any_cons, ih]

theorem runLoop_stops_on_quiet_pass (gen : GenOracle) (seeds : List Nat)
    (k m target : Nat) (pt : Nat → Nat) (cfgs : List Config)
    (fuel idx : Nat) (st : Store)
    (h : (sweepConfigs gen seeds k m target (pt idx) cfgs st).2 = false) :
    runLoop gen seeds k m target pt cfgs (fuel + 1) idx st
      = some (sweepConfigs gen seeds k m target (pt idx) cfgs st).1 := by
  rw [runLoop]
  rcases hs : sweepConfigs gen seeds k m target (pt idx) cfgs st with ⟨st1, b⟩
  rw [hs] at h
  simp only at h
  subst h
  simp [hs]

/-- A generator oracle that emits nothing (it is never invoked in the runs
it appears in). -/
def genNone : GenOracle := fun _ _ _ _ => ⟨[], 0⟩

/-- A store in which the single configuration has no records and the only
candidate block (offset 0 for target 2) is locked by another worker until
instant 100. -/
def c5Store : Store := [(cfgA, ⟨[], [], [(0, ⟨0, some 100⟩)]⟩)]

/-- Counterexample to claim C5 as stated: a pass over a configuration
whose only candidate block is held by another worker produces zero new
Instance Records, yet the pass reports `run_again = True` — the contended
outcome returns work value `-1`, and the loop re-sweeps whenever a work
value is nonzero, not only when new records were produced. -/
theorem resweep_triggered_without_new_records :
    (sweepConfigs genNone [5, 6] 0 0 2 1 [cfgA] c5Store).2 = true
    ∧ (getCS (sweepConfigs genNone [5, 6] 0 0 2 1 [cfgA] c5Store).1 cfgA).instHash = [] :=
  ⟨rfl, rfl⟩

/-- Claim C5 as amended.  The loop performs another full sweep exactly
when some configuration reported a nonzero work value, where "already
complete" reports 0 but "block fully contended" reports −1 — a nonzero
value that also triggers another sweep despite producing no new Instance
Records (likewise "no new seeds in the claimed block" reports −2); and a
pass on which every configuration reports 0 makes the loop terminate
normally (DONE) with the store of that pass. -/
theorem convergence_follows_work_values (gen : GenOracle) (seeds : List Nat)
    (k m target : Nat) (pt : Nat → Nat) (fuel idx : Nat) (cfgs : List Config)
    (st : Store) (c : Config) (cs : ConfigState)
    (h1 : hlen cs.instHash < target)
    (h2 : ∀ b ∈ pyRange target BLOCK_SIZE, keyPresent cs.locks b (pt idx) = true) :
    ((sweepConfigs gen seeds k m target (pt idx) cfgs st).2
        = (sweepWorks gen seeds k m target (pt idx) cfgs st).any (fun w => w != 0))
    ∧ (∀ cs', target ≤ hlen cs'.instHash →
         generate_instances gen seeds k m c target (pt idx) cs'
           = (cs', (hlen cs'.instHash : Int), 0))
    ∧ ((generate_instances gen seeds k m c target (pt idx) cs).2.2 = -1
       ∧ (generate_instances gen seeds k m c target (pt idx) cs).1.instHash = cs.instHash)
    ∧ ((sweepConfigs gen seeds k m target (pt idx) cfgs st).2 = false →
         runLoop gen seeds k m target pt cfgs (fuel + 1) idx st
           = some (sweepConfigs gen seeds k m target (pt idx) cfgs st).1) := by
  refine ⟨sweepConfigs_flag_eq_any gen seeds k m target (pt idx) cfgs st, ?_, ?_, ?_⟩
  · intro cs' h
    exact generate_instances_complete gen seeds k m c target (pt idx) cs' h
  · have hc := generate_instances_contended gen seeds k m c target (pt idx) cs h1 h2
    rw [hc]
    exact ⟨rfl, rfl⟩
  · intro h
    exact runLoop_stops_on_quiet_pass gen seeds k m target pt cfgs fuel idx st h

/-- Concrete run of the amended claim C5, at the contended store of the
counterexample. -/
theorem convergence_follows_work_values_witness :
    hlen (⟨[], [], [(0, ⟨0, some 100⟩)]⟩ : ConfigState).instHash < 2
    ∧ (∀ b ∈ pyRange 2 BLOCK_SIZE,
        keyPresent (⟨[], [], [(0, ⟨0, some 100⟩)]⟩ : ConfigState).locks b 1 = true)
    ∧ (((sweepConfigs genNone [5, 6] 0 0 2 1 [cfgA] c5Store).2
        = (sweepWorks genNone [5, 6] 0 0 2 1 [cfgA] c5Store).any (fun w => w != 0))
      ∧ (∀ cs', 2 ≤ hlen cs'.instHash →
           generate_instances genNone [5, 6] 0 0 cfgA 2 1 cs'
             = (cs', (hlen cs'.instHash : Int), 0))
      ∧ ((generate_instances genNone [5, 6] 0 0 cfgA 2 1
            ⟨[], [], [(0, ⟨0, some 100⟩)]⟩).2.2 = -1
         ∧ (generate_instances genNone [5, 6] 0 0 cfgA 2 1
              ⟨[], [], [(0, ⟨0, some 100⟩)]⟩).1.instHash
             = (⟨[], [], [(0, ⟨0, some 100⟩)]⟩ : ConfigState).instHash)
      ∧ ((sweepConfigs genNone [5, 6] 0 0 2 1 [cfgA] c5Store).2 = false →
           runLoop genNone [5, 6] 0 0 2 (fun _ => 1) [cfgA] (0 + 1) 0 c5Store
             = some (sweepConfigs genNone [5, 6] 0 0 2 1 [cfgA] c5Store).1)) :=
  ⟨by decide, by decide,
    convergence_follows_work_values genNone [5, 6] 0 0 2 (fun _ => 1) 0 0 [cfgA]
      c5Store cfgA ⟨[], [], [(0, ⟨0, some 100⟩)]⟩ (by decide) (by decide)⟩

theorem getCS_setCS (st : Store) (c c' : Config) (cs : ConfigState) :
    getCS (setCS st c cs) c' = if c = c' then cs else getCS st c' := by
  by_cases h : c = c'
  · subst h
    simp [getCS, setCS, alGet_set_self]
  · simp [getCS, setCS, alGet_set_ne st c c' cs h, h]

theorem sweepConfigs_single (gen : GenOracle) (seeds : List Nat)
    (k m target t : Nat) (c : Config) (st : Store) :
    sweepConfigs gen seeds k m target t [c] st
      = (setCS st c (generate_instances gen seeds k m c target t (getCS st c)).1,
         (generate_instances gen seeds k m c target t (getCS st c)).2.2 != 0) := by
  rw [sweepConfigs, sweepConfigs]
  simp

theorem writePairs_instHash_len :
    ∀ (batch : List Nat) (out : List String) (hi he : RHash),
      batch.Nodup → (∀ s ∈ batch, hexists hi s = false) →
      (writePairs out batch hi he).1.length = hi.length + batch.length := by
  intro batch
  induction batch with
  | nil =>
    intro out hi he _ _
    simp [writePairs]
  | cons s rest ih =>
    intro out hi he hnd hfresh
    rw [writePairs]
    have hfs : hexists hi s = false := hfresh s (List.mem_cons_self s rest)
    have hfresh' : ∀ s' ∈ rest, hexists (hset hi s (readLine out).1) s' = false := by
      intro s' hs'
      rw [hexists, hset, alHas_set]
      rw [if_neg (fun hss => (List.nodup_cons.mp hnd).1 (by rw [hss]; exact hs'))]
      exact hfresh s' (List.mem_cons_of_mem s hs')
    rw [ih _ _ _ (List.nodup_cons.mp hnd).2 hfresh']
    rw [show (hset hi s (readLine out).1).length = hi.length + 1 from
      length_alSet_fresh hi s _ hfs]
    rw [List.length_cons]
    omega

theorem pyRange_head (target : Nat) (h : 0 < target) :
    ∃ rest, pyRange target BLOCK_SIZE = 0 :: rest := by
  rw [pyRange, BLOCK_SIZE]
  have hq : (target + 20 - 1) / 20 = ((target + 20 - 1) / 20 - 1) + 1 := by omega
  rw [hq, List.range_succ_eq_map, List.map_cons]
  rw [Nat.zero_mul]
  exact ⟨_, rfl⟩

theorem scan_empty_locks (t : Nat) (rest : List Nat) :
    scanBlocks t [] (0 :: rest) = (some 0, [(0, ⟨t, some (t + LOCK_TIME)⟩)]) := rfl

theorem toGenerate_fresh (seeds : List Nat) (target : Nat) :
    toGenerate seeds 0 0 target [] = seeds.take target := by
  rw [toGenerate, pySlice]
  simp [hexists, alHas]

/-- One call on a configuration with an empty keyspace and enough distinct
seeds: block 0 is claimed at once, the batch is the first `target` seeds,
every pair is written, the lock is deleted, and the call reports
`(target, target)`. -/
theorem generate_instances_fresh (gen : GenOracle) (seeds : List Nat)
    (k m : Nat) (c : Config) (target t : Nat)
    (h1 : 0 < target) (h2 : target ≤ seeds.length) (h3 : seeds.Nodup) :
    ∃ cs', generate_instances gen seeds k m c target t emptyCS
        = (cs', (target : Int), (target : Int))
      ∧ hlen cs'.instHash = target := by
  obtain ⟨rest, hpr⟩ := pyRange_head target h1
  have hlen_batch : (seeds.take target).length = target := by
    rw [List.length_take]
    omega
  have hwrite : ∀ out he, (writePairs out (seeds.take target) [] he).1.length = target := by
    intro out he
    rw [writePairs_instHash_len (seeds.take target) out [] he
      (h3.sublist (List.take_sublist target seeds)) (fun s _ => rfl)]
    simpa using hlen_batch
  rw [generate_instances]
  simp only [show emptyCS.instHash = [] from rfl, show emptyCS.evalHash = [] from rfl,
    show emptyCS.locks = [] from rfl, show hlen ([] : RHash) = 0 from rfl, hpr,
    scan_empty_locks, toGenerate_fresh]
  rw [if_neg (by omega : ¬ target ≤ 0)]
  rw [if_neg (by rw [hlen_batch]; omega)]
  refine ⟨⟨(writePairs (gen k m c (List.take target seeds)).stdoutLines
      (List.take target seeds) [] []).1,
    (writePairs (gen k m c (List.take target seeds)).stdoutLines
      (List.take target seeds) [] []).2,
    lockDel [(0, ⟨t, some (t + LOCK_TIME)⟩)] 0⟩, ?_, ?_⟩
  · simp only [hlen, hwrite, hlen_batch]
  · simp only [hlen, hwrite]

/-- Claim C2 as amended.  For a configuration with an empty keyspace and a
deduplicated Seed Universe of at least `target` seeds, the coordinator
converges (within two passes), exactly `min(target, |Seed Universe|)`
Instance Records exist at convergence, and a second run against the same
store converges immediately with no additional Instance or Evaluation
writes.  (When the Seed Universe is smaller than the target, the
coordinator never converges — see the counterexample.) -/
theorem coordinator_idempotent_given_enough_seeds (gen : GenOracle)
    (seeds : List Nat) (k m target : Nat) (pt pt2 : Nat → Nat) (c : Config)
    (h1 : target ≤ seeds.length) (h2 : seeds.Nodup) :
    ∃ stB, runLoop gen seeds k m target pt [c] 2 0 [] = some stB
      ∧ hlen (getCS stB c).instHash = min target seeds.length
      ∧ ∃ stC, runLoop gen seeds k m target pt2 [c] 1 0 stB = some stC
        ∧ ∀ c', (getCS stC c').instHash = (getCS stB c').instHash
              ∧ (getCS stC c').evalHash = (getCS stB c').evalHash := by
  have hmin : min target seeds.length = target := Nat.min_eq_left h1
  have hsecond : ∀ (st : Store) (t2 : Nat), target ≤ hlen (getCS st c).instHash →
      sweepConfigs gen seeds k m target t2 [c] st
        = (setCS st c (getCS st c), false) := by
    intro st t2 hc
    rw [sweepConfigs_single, generate_instances_complete gen seeds k m c target t2 _ hc]
    simp
  have hobs : ∀ (st : Store) (c' : Config),
      (getCS (setCS st c (getCS st c)) c').instHash = (getCS st c').instHash
      ∧ (getCS (setCS st c (getCS st c)) c').evalHash = (getCS st c').evalHash := by
    intro st c'
    rw [getCS_setCS]
    by_cases h : c = c'
    · subst h
      exact ⟨by rw [if_pos rfl], by rw [if_pos rfl]⟩
    · rw [if_neg h]
      exact ⟨rfl, rfl⟩
  rcases Nat.eq_zero_or_pos target with rfl | hpos
  · -- target = 0: the very first pass is already quiet
    have hq : hlen (getCS ([] : Store) c).instHash = 0 := rfl
    have hsw := hsecond [] (pt 0) (by rw [hq])
    have hsw2 := hsecond (setCS [] c (getCS [] c)) (pt2 0) (Nat.zero_le _)
    have h2nd := runLoop_stops_on_quiet_pass gen seeds k m 0 pt2 [c] 0 0
      (setCS [] c (getCS [] c)) (by rw [hsw2])
    rw [hsw2] at h2nd
    refine ⟨setCS [] c (getCS [] c), ?_, ?_,
      setCS (setCS [] c (getCS [] c)) c (getCS (setCS [] c (getCS [] c)) c), h2nd, ?_⟩
    · have h1st := runLoop_stops_on_quiet_pass gen seeds k m 0 pt [c] 1 0 [] (by rw [hsw])
      rw [hsw] at h1st
      exact h1st
    · rw [(hobs [] c).1, hq]
      simp
    · intro c'
      exact hobs _ c'
  · -- target > 0: first pass generates everything, second pass is quiet
    obtain ⟨csA, hgen, hlenA⟩ :=
      generate_instances_fresh gen seeds k m c target (pt 0) hpos h1 h2
    have hsw0 : sweepConfigs gen seeds k m target (pt 0) [c] []
        = (setCS [] c csA, true) := by
      rw [sweepConfigs_single, show getCS [] c = emptyCS from rfl, hgen]
      simp only []
      rw [show (((target : Int) != 0) = true) from by
        simp [bne_iff_ne]
        omega]
    have hgetA : getCS (setCS [] c csA) c = csA := by
      rw [getCS_setCS, if_pos rfl]
    have hsw1 := hsecond (setCS [] c csA) (pt 1) (by rw [hgetA, hlenA])
    have hrun : runLoop gen seeds k m target pt [c] 2 0 []
        = some (setCS (setCS [] c csA) c (getCS (setCS [] c csA) c)) := by
      rw [show (2 : Nat) = 1 + 1 from rfl, runLoop, hsw0]
      show runLoop gen seeds k m target pt [c] (0 + 1) 1 (setCS [] c csA) = _
      have hstep2 := runLoop_stops_on_quiet_pass gen seeds k m target pt [c] 0 1
        (setCS [] c csA) (by rw [hsw1])
      rw [hsw1] at hstep2
      exact hstep2
    have hobsB := hobs (setCS [] c csA) c
    have hlenB : hlen (getCS (setCS (setCS [] c csA) c (getCS (setCS [] c csA) c)) c).instHash
        = target := by
      rw [hobsB.1, hgetA, hlenA]
    have hswB := hsecond (setCS (setCS [] c csA) c (getCS (setCS [] c csA) c)) (pt2 0)
      (by rw [hlenB])
    have h2nd := runLoop_stops_on_quiet_pass gen seeds k m target pt2 [c] 0 0
      (setCS (setCS [] c csA) c (getCS (setCS [] c csA) c)) (by rw [hswB])
    rw [hswB] at h2nd
    refine ⟨_, hrun, ?_, _, h2nd, ?_⟩
    · rw [hobsB.1, hgetA, hlenA, hmin]
    · intro c'
      exact hobs _ c'

/-- Concrete run of the amended claim C2: two seeds, target 2. -/
theorem coordinator_idempotent_given_enough_seeds_witness :
    2 ≤ ([3, 4] : List Nat).length ∧ ([3, 4] : List Nat).Nodup
    ∧ (∃ stB, runLoop (fun _ _ _ _ => ⟨["a", "b", "c", "d"], 0⟩) [3, 4] 0 0 2 id [cfgA]
          2 0 [] = some stB
        ∧ hlen (getCS stB cfgA).instHash = min 2 ([3, 4] : List Nat).length
        ∧ ∃ stC, runLoop (fun _ _ _ _ => ⟨["a", "b", "c", "d"], 0⟩) [3, 4] 0 0 2 id [cfgA]
            1 0 stB = some stC
          ∧ ∀ c', (getCS stC c').instHash = (getCS stB c').instHash
                ∧ (getCS stC c').evalHash = (getCS stB c').evalHash) :=
  ⟨by decide, by decide,
    coordinator_idempotent_given_enough_seeds (fun _ _ _ _ => ⟨["a", "b", "c", "d"], 0⟩)
      [3, 4] 0 0 2 id id cfgA (by decide) (by decide)⟩

/-! ### Non-convergence when the Seed Universe is smaller than the target

Concrete coordinator run with Seed Universe `[5]` and target 2: pass 0
generates the one available seed; pass 1 re-claims block 0 and finds no
new seed (work −2, keeping the lock); every later pass finds block 0
locked (work −1) while refreshing its TTL, so `run_again` never becomes
false. -/

/-- The generator oracle for the small-universe run: one (instance,
evaluation) pair. -/
def c2gen : GenOracle := fun _ _ _ _ => ⟨["I", "E"], 0⟩

/-- One pass of the small-universe run: pass number `idx` runs at store
instant `idx`. -/
def c2Pass (idx : Nat) (st : Store) : Store × Bool :=
  sweepConfigs c2gen [5] 0 0 2 idx [cfgA] st

/-- The store before pass `n` of the small-universe run, starting from an
empty store. -/
def c2State : Nat → Store
  | 0 => []
  | n + 1 => (c2Pass n (c2State n)).1

/-- The `run_again` flag produced by pass `n` of the small-universe run. -/
def c2Flag (n : Nat) : Bool := (c2Pass n (c2State n)).2

/-- The store the small-universe run settles into: one record for seed 5
and block 0 locked until instant `k + 10001`. -/
def c2Locked (k : Nat) : Store :=
  [(cfgA, ⟨[(5, "I")], [(5, "E")], [(0, ⟨1, some (k + 10001)⟩)]⟩)]

theorem tryLock_fail_eq (l : LockMap) (b t : Nat) (e : LockEntry)
    (hg : alGet l b = some e) (ha : entryAlive e t = true) :
    tryLock l b t = (false, alSet l b ⟨e.value, some (t + LOCK_TIME)⟩) := by
  have hkp : keyPresent l b t = true := by
    rw [keyPresent, hg]
    exact ha
  simp only [tryLock, setnx, hkp, reduceIte, expireCmd, hg, ha]

theorem c2_step (p : Nat) : c2Pass (p + 2) (c2Locked p) = (c2Locked (p + 1), true) := by
  have halive : entryAlive (⟨1, some (p + 10001)⟩ : LockEntry) (p + 2) = true := by
    simp [entryAlive]
  have hkp : ∀ b ∈ pyRange 2 BLOCK_SIZE,
      keyPresent [(0, (⟨1, some (p + 10001)⟩ : LockEntry))] b (p + 2) = true := by
    intro b hb
    rw [show pyRange 2 BLOCK_SIZE = [0] from rfl] at hb
    rcases List.mem_singleton.mp hb with rfl
    rw [keyPresent, show alGet [(0, (⟨1, some (p + 10001)⟩ : LockEntry))] 0
      = some ⟨1, some (p + 10001)⟩ from rfl]
    exact halive
  have hcs : getCS (c2Locked p) cfgA
      = ⟨[(5, "I")], [(5, "E")], [(0, ⟨1, some (p + 10001)⟩)]⟩ := rfl
  have hgen := generate_instances_contended c2gen [5] 0 0 cfgA 2 (p + 2)
    ⟨[(5, "I")], [(5, "E")], [(0, ⟨1, some (p + 10001)⟩)]⟩ (by simp [hlen]) hkp
  have htl := tryLock_fail_eq [(0, (⟨1, some (p + 10001)⟩ : LockEntry))] 0 (p + 2)
    ⟨1, some (p + 10001)⟩ rfl halive
  have hscan : (scanBlocks (p + 2) [(0, (⟨1, some (p + 10001)⟩ : LockEntry))]
      (pyRange 2 BLOCK_SIZE)).2 = [(0, ⟨1, some (p + 2 + 10000)⟩)] := by
    rw [show pyRange 2 BLOCK_SIZE = [0] from rfl, scanBlocks, htl]
    rfl
  rw [c2Pass, sweepConfigs_single, hcs, hgen]
  simp only [hscan]
  have hexp : p + 2 + 10000 = p + 1 + 10001 := by omega
  rw [hexp]
  rfl

theorem c2_invariant : ∀ n, c2State (n + 2) = c2Locked n ∧ c2Flag (n + 2) = true := by
  intro n
  induction n with
  | zero => exact ⟨by decide, by decide⟩
  | succ p ih =>
    have hst : c2State (p + 3) = c2Locked (p + 1) := by
      show (c2Pass (p + 2) (c2State (p + 2))).1 = _
      rw [ih.1, c2_step]
    refine ⟨hst, ?_⟩
    show (c2Pass (p + 3) (c2State (p + 3))).2 = true
    rw [hst, show p + 3 = (p + 1) + 2 from rfl, c2_step]

/-- Counterexample to claim C2 as stated: with Seed Universe `[5]` and
target 2 the coordinator never reaches DONE — every pass reports
`run_again = True` (pass 0 generates the one seed, pass 1 claims a block
with no new seed and keeps its lock, every later pass is contended and
refreshes that lock's TTL) — so "running the coordinator to convergence"
is impossible and no convergent state with `min(target, |Seed Universe|)`
records is ever certified, although exactly one record was written. -/
theorem coordinator_never_converges_small_universe :
    (¬ ∃ n, c2Flag n = false)
    ∧ (getCS (c2State 2) cfgA).instHash = [(5, "I")] := by
  refine ⟨?_, by decide⟩
  rintro ⟨n, hn⟩
  match n with
  | 0 => rw [show c2Flag 0 = true from by decide] at hn; cases hn
  | 1 => rw [show c2Flag 1 = true from by decide] at hn; cases hn
  | (n2 + 2) => rw [(c2_invariant n2).2] at hn; cases hn
